import Mathlib

/-!
Verification of the blackbox-clients Python SDK core
(`blackbox_python_sdk`): schema translation, signature hashing,
scope resolution, and the call-capture dispatcher, shallowly embedded
from `signature.py`, `decorator.py`, `capture.py`, `storage.py`,
`api_client.py` and `config.py`.
-/

namespace Blackbox

/-- Character lists stand in for Python `str` values so that all string
reasoning happens on `List Char`. -/
abbrev Chars := List Char

/-- JSON documents as produced by the SDK: objects are association lists in
insertion order, exactly like Python dicts. -/
inductive Json where
  | null : Json
  | bool (b : Bool) : Json
  | num (n : Nat) : Json
  | str (s : Chars) : Json
  | arr (xs : List Json) : Json
  | obj (es : List (Chars × Json)) : Json

/-! ## Key ordering and sorting (what `json.dumps(..., sort_keys=True)` does) -/

/-- Lexicographic comparison of keys by Unicode code point, the order Python
uses when sorting `str` keys. -/
def keyLe : Chars → Chars → Bool
  | [], _ => true
  | _ :: _, [] => false
  | c :: cs, d :: ds =>
    if c.toNat < d.toNat then true
    else if d.toNat < c.toNat then false
    else keyLe cs ds

/-- Insert an entry into a key-sorted association list. -/
def insEntry (e : Chars × Json) : List (Chars × Json) → List (Chars × Json)
  | [] => [e]
  | f :: fs => if keyLe e.1 f.1 then e :: f :: fs else f :: insEntry e fs

/-- Sort an association list by key (insertion sort); this is the key order
`json.dumps(..., sort_keys=True)` emits object members in. -/
def sortk (l : List (Chars × Json)) : List (Chars × Json) :=
  l.foldr insEntry []

/-! ## Serialization helpers -/

/-- Decimal digits of a natural number, as Python prints an `int`. -/
def natChars (n : Nat) : Chars :=
  if h : n < 10 then [Char.ofNat (48 + n)]
  else natChars (n / 10) ++ [Char.ofNat (48 + n % 10)]
decreasing_by exact Nat.div_lt_self (by omega) (by omega)

/-- Uppercase hex digit used inside `\uXXXX` escapes is not needed:
`json.dumps` emits lowercase hex there. One hex digit, lowercase. -/
def hexDigit (n : Nat) : Char :=
  if n < 10 then Char.ofNat (48 + n) else Char.ofNat (87 + n)

/-- Four lowercase hex digits, as in a `\uXXXX` escape. -/
def hex4 (n : Nat) : Chars :=
  [hexDigit (n / 4096 % 16), hexDigit (n / 256 % 16), hexDigit (n / 16 % 16),
   hexDigit (n % 16)]

/-- Escape one character the way `json.dumps` (default `ensure_ascii=True`)
does inside a string literal. -/
def escChar (c : Char) : Chars :=
  let n := c.toNat
  if c = '"' then ['\\', '"']
  else if c = '\\' then ['\\', '\\']
  else if n ≥ 32 ∧ n < 127 then [c]
  else if c = '\n' then ['\\', 'n']
  else if c = '\t' then ['\\', 't']
  else if c = '\r' then ['\\', 'r']
  else if n = 8 then ['\\', 'b']
  else if n = 12 then ['\\', 'f']
  else if n < 65536 then '\\' :: 'u' :: hex4 n
  else
    let m := n - 65536
    '\\' :: 'u' :: hex4 (55296 + m / 1024) ++ '\\' :: 'u' :: hex4 (56320 + m % 1024)

/-- Escape a whole string body. -/
def escStr (s : Chars) : Chars := (s.map escChar).flatten

/-- A JSON string literal: quote, escaped body, quote. -/
def dumpStr (s : Chars) : Chars := '"' :: escStr s ++ ['"']

mutual

/-- Recursively sort every object node by key. Serializing the result
without further sorting is exactly `json.dumps(..., sort_keys=True)`,
which sorts each map's keys at every nesting level as it emits them. -/
def nfSort : Json → Json
  | .null => .null
  | .bool b => .bool b
  | .num n => .num n
  | .str s => .str s
  | .arr xs => .arr (nfList xs)
  | .obj es => .obj (sortk (nfObj es))

/-- Apply `nfSort` to each array element. -/
def nfList : List Json → List Json
  | [] => []
  | j :: js => nfSort j :: nfList js

/-- Apply `nfSort` to each object member value (keys untouched). -/
def nfObj : List (Chars × Json) → List (Chars × Json)
  | [] => []
  | (k, v) :: es => (k, nfSort v) :: nfObj es

end

mutual

/-- Serialize a JSON document in the order its lists and objects already
have, with Python's default separators `(", ", ": ")`. -/
def dumpsRaw : Json → Chars
  | .null => "null".data
  | .bool true => "true".data
  | .bool false => "false".data
  | .num n => natChars n
  | .str s => dumpStr s
  | .arr xs => '[' :: dumpsList xs ++ [']']
  | .obj es => '{' :: dumpsObj es ++ ['}']

/-- Array elements joined by `", "`. -/
def dumpsList : List Json → Chars
  | [] => []
  | [j] => dumpsRaw j
  | j :: js => dumpsRaw j ++ ',' :: ' ' :: dumpsList js

/-- Object members joined by `", "`, each rendered as `"key": value`. -/
def dumpsObj : List (Chars × Json) → Chars
  | [] => []
  | [(k, v)] => dumpStr k ++ ':' :: ' ' :: dumpsRaw v
  | (k, v) :: es => dumpStr k ++ ':' :: ' ' :: dumpsRaw v ++ ',' :: ' ' :: dumpsObj es

end

/-- Python `json.dumps(j, sort_keys=True)`: sort map keys at every nesting level,
then serialize — the canonical string form the SDK hashes. -/
def dumps (j : Json) : Chars := dumpsRaw (nfSort j)

/-- UTF-8 encoding of one character (code point to bytes). -/
def utf8Char (c : Char) : List Nat :=
  let n := c.toNat
  if n < 128 then [n]
  else if n < 2048 then [192 + n / 64, 128 + n % 64]
  else if n < 65536 then [224 + n / 4096, 128 + n / 64 % 64, 128 + n % 64]
  else [240 + n / 262144, 128 + n / 4096 % 64, 128 + n / 64 % 64, 128 + n % 64]

/-- UTF-8 encoding of a string, i.e. Python `s.encode("utf-8")`. -/
def utf8 (s : Chars) : List Nat := (s.map utf8Char).flatten

/-! ## SHA-256 over byte lists (bytes are `Nat` values below 256) -/

/-- Truncate to a 32-bit word. -/
def w32 (n : Nat) : Nat := n % 4294967296

/-- Right rotation of a 32-bit word. -/
def rotr (n k : Nat) : Nat := w32 ((n >>> k) ||| (n <<< (32 - k)))

/-- The 64 SHA-256 round constants. -/
def shaK : List Nat :=
  [1116352408, 1899447441, 3049323471, 3921009573, 961987163, 1508970993,
   2453635748, 2870763221, 3624381080, 310598401, 607225278, 1426881987,
   1925078388, 2162078206, 2614888103, 3248222580, 3835390401, 4022224774,
   264347078, 604807628, 770255983, 1249150122, 1555081692, 1996064986,
   2554220882, 2821834349, 2952996808, 3210313671, 3336571891, 3584528711,
   113926993, 338241895, 666307205, 773529912, 1294757372, 1396182291,
   1695183700, 1986661051, 2177026350, 2456956037, 2730485921, 2820302411,
   3259730800, 3345764771, 3516065817, 3600352804, 4094571909, 275423344,
   430227734, 506948616, 659060556, 883997877, 958139571, 1322822218,
   1537002063, 1747873779, 1955562222, 2024104815, 2227730452, 2361852424,
   2428436474, 2756734187, 3204031479, 3329325298]

/-- SHA-256 working state: the eight 32-bit hash words. -/
structure Sha8 where
  a : Nat
  b : Nat
  c : Nat
  d : Nat
  e : Nat
  f : Nat
  g : Nat
  h : Nat

/-- Initial SHA-256 hash state. -/
def shaInit : Sha8 :=
  ⟨1779033703, 3144134277, 1013904242, 2773480762,
   1359893119, 2600822924, 528734635, 1541459225⟩

/-- One compression round, driven by a round constant and a schedule word. -/
def shaRound (st : Sha8) (kw : Nat × Nat) : Sha8 :=
  let s1 := (rotr st.e 6) ^^^ (rotr st.e 11) ^^^ (rotr st.e 25)
  let ch := (st.e &&& st.f) ^^^ ((st.e ^^^ 4294967295) &&& st.g)
  let t1 := w32 (st.h + s1 + ch + kw.1 + kw.2)
  let s0 := (rotr st.a 2) ^^^ (rotr st.a 13) ^^^ (rotr st.a 22)
  let mj := (st.a &&& st.b) ^^^ (st.a &&& st.c) ^^^ (st.b &&& st.c)
  let t2 := w32 (s0 + mj)
  ⟨w32 (t1 + t2), st.a, st.b, st.c, w32 (st.d + t1), st.e, st.f, st.g⟩

/-- Group a byte list into big-endian 32-bit words. -/
def wordsOfBytes : List Nat → List Nat
  | b0 :: b1 :: b2 :: b3 :: t =>
    (b0 * 16777216 + b1 * 65536 + b2 * 256 + b3) :: wordsOfBytes t
  | _ => []

/-- Extend the 16 message words to the 64-entry schedule. -/
def schedExtend : Nat → List Nat → List Nat
  | 0, ws => ws
  | k + 1, ws =>
    let n := ws.length
    let wa := ws.getD (n - 2) 0
    let wb := ws.getD (n - 7) 0
    let wc := ws.getD (n - 15) 0
    let wd := ws.getD (n - 16) 0
    let s0 := (rotr wc 7) ^^^ (rotr wc 18) ^^^ (wc >>> 3)
    let s1 := (rotr wa 17) ^^^ (rotr wa 19) ^^^ (wa >>> 10)
    schedExtend k (ws ++ [w32 (wd + s0 + wb + s1)])

/-- Compress one 64-byte chunk into the running state. -/
def shaChunk (st : Sha8) (chunk : List Nat) : Sha8 :=
  let ws := schedExtend 48 (wordsOfBytes chunk)
  let t := (shaK.zip ws).foldl shaRound st
  ⟨w32 (st.a + t.a), w32 (st.b + t.b), w32 (st.c + t.c), w32 (st.d + t.d),
   w32 (st.e + t.e), w32 (st.f + t.f), w32 (st.g + t.g), w32 (st.h + t.h)⟩

/-- Split a list into successive 64-byte chunks. -/
def chunks64 (l : List Nat) : List (List Nat) :=
  match l with
  | [] => []
  | x :: t => (x :: t).take 64 :: chunks64 ((x :: t).drop 64)
termination_by l.length
decreasing_by simp [List.length_drop]; omega

/-- SHA-256 padding: append `0x80`, zeros, and the 64-bit big-endian bit
length so the total length is a multiple of 64. -/
def shaPad (msg : List Nat) : List Nat :=
  let len := msg.length
  let zeros := (64 + 55 - len % 64) % 64
  let bits := 8 * len
  msg ++ 128 :: List.replicate zeros 0 ++
    [bits / 72057594037927936 % 256, bits / 281474976710656 % 256,
     bits / 1099511627776 % 256, bits / 4294967296 % 256,
     bits / 16777216 % 256, bits / 65536 % 256, bits / 256 % 256, bits % 256]

/-- Big-endian bytes of one 32-bit word. -/
def bytesOfWord (n : Nat) : List Nat :=
  [n / 16777216 % 256, n / 65536 % 256, n / 256 % 256, n % 256]

/-- SHA-256 digest (32 bytes) of a byte list. -/
def sha256 (msg : List Nat) : List Nat :=
  let st := (chunks64 (shaPad msg)).foldl shaChunk shaInit
  bytesOfWord st.a ++ bytesOfWord st.b ++ bytesOfWord st.c ++ bytesOfWord st.d ++
    bytesOfWord st.e ++ bytesOfWord st.f ++ bytesOfWord st.g ++ bytesOfWord st.h

/-- Two lowercase hex digits of one byte. -/
def hexByte (b : Nat) : Chars := [hexDigit (b / 16), hexDigit (b % 16)]

/-- Lowercase hex rendering of a byte list, i.e. Python `hexdigest()`. -/
def hexBytes (bs : List Nat) : Chars := (bs.map hexByte).flatten

/-- Python `hashlib.sha256(msg).hexdigest()`. -/
def sha256hex (msg : List Nat) : Chars := hexBytes (sha256 msg)

/-! ## Python type hints, embedded from `_python_type_to_json_schema` -/

/-- Python type annotations as the translator distinguishes them:
absent annotations, Pydantic models (whose own JSON schema either succeeds
or raises), `type(None)`, `Union[...]` with its argument list, `list`/`dict`/
`tuple` generics, the exact primitives, the bare containers, other classes,
and anything else (carrying its `str(typ)` form). -/
inductive PyType where
  | noneAnnot : PyType
  | pydantic (name : Chars) (js : Option (List (Chars × Json))) : PyType
  | noneType : PyType
  | union (args : List PyType) : PyType
  | glist (arg : Option PyType) : PyType
  | gdict (args : Option (PyType × PyType)) : PyType
  | gtuple (args : List PyType) : PyType
  | pstr : PyType
  | pint : PyType
  | pfloat : PyType
  | pbool : PyType
  | bdict : PyType
  | blist : PyType
  | klass (name : Chars) : PyType
  | unk (reprStr : Chars) : PyType

/-- Is this annotation `type(None)`? (`arg is not type(None)` filter). -/
def PyType.isNoneType : PyType → Bool
  | .noneType => true
  | _ => false

/-- Python dict assignment `schema[k] = v`: replace the value in place if
the key exists, otherwise append the new entry. -/
def setKey (j : Json) (k : Chars) (v : Json) : Json :=
  match j with
  | .obj es =>
    if es.any (fun e => e.1 == k) then
      .obj (es.map (fun e => if e.1 == k then (e.1, v) else e))
    else
      .obj (es ++ [(k, v)])
  | other => other

/-- First-match association lookup, Python `dict.get`. -/
def jget (j : Json) (k : Chars) : Option Json :=
  match j with
  | .obj es =>
    match es.find? (fun e => e.1 == k) with
    | some e => some e.2
    | none => none
  | _ => none

/-- Python `k in schema`. -/
def jhasKey (j : Json) (k : Chars) : Bool := (jget j k).isSome

mutual

/-- Embeds `SignatureManager._python_type_to_json_schema`: convert a type hint to
its JSON-schema document, rule by rule in source order. -/
def translate : PyType → Json
  | .noneAnnot => .obj [("type".data, .str "any".data)]
  | .pydantic name js =>
    match js with
    | some es => .obj es
    | none => .obj [("type".data, .str "object".data), ("description".data, .str name)]
  | .noneType => .obj [("type".data, .str "null".data)]
  | .union args =>
    match hnn : args.filter (fun a => !a.isNoneType) with
    | [a] => setKey (translate a) "nullable".data (.bool true)
    | _ => .obj [("anyOf".data, .arr (translateList args))]
  | .glist (some a) => .obj [("type".data, .str "array".data), ("items".data, translate a)]
  | .glist none => .obj [("type".data, .str "array".data)]
  | .gdict (some (_, vt)) =>
    .obj [("type".data, .str "object".data), ("additionalProperties".data, translate vt)]
  | .gdict none => .obj [("type".data, .str "object".data)]
  | .gtuple [] => .obj [("type".data, .str "array".data)]
  | .gtuple (a :: rest) =>
    .obj [("type".data, .str "array".data),
          ("items".data, .arr (translateList (a :: rest))),
          ("minItems".data, .num (a :: rest).length),
          ("maxItems".data, .num (a :: rest).length)]
  | .pstr => .obj [("type".data, .str "string".data)]
  | .pint => .obj [("type".data, .str "integer".data)]
  | .pfloat => .obj [("type".data, .str "number".data)]
  | .pbool => .obj [("type".data, .str "boolean".data)]
  | .bdict => .obj [("type".data, .str "object".data)]
  | .blist => .obj [("type".data, .str "array".data)]
  | .klass name => .obj [("type".data, .str "object".data), ("description".data, .str name)]
  | .unk reprStr => .obj [("type".data, .str "any".data), ("description".data, .str reprStr)]
termination_by t => sizeOf t
decreasing_by
  all_goals simp_wf
  all_goals try omega
  all_goals
    (have ha : a ∈ List.filter (fun a => !a.isNoneType) args := by
       rw [hnn]; exact List.mem_singleton_self a
     have hb := List.sizeOf_lt_of_mem (List.mem_of_mem_filter ha)
     omega)

/-- Apply `translate` to each argument of a union or tuple. -/
def translateList : List PyType → List Json
  | [] => []
  | t :: ts => translate t :: translateList ts
termination_by ts => sizeOf ts
decreasing_by
  all_goals simp_wf
  all_goals omega

end

/-! ## Runtime values and serialization (`_serialize_value`) -/

/-- Python runtime values as the capture path distinguishes them: Pydantic
model instances, lists, dicts, tuples, and everything else (primitives and
opaque objects pass through unchanged). -/
inductive Value where
  | vnone : Value
  | vint (n : Int) : Value
  | vstr (s : Chars) : Value
  | vbool (b : Bool) : Value
  | vlist (xs : List Value) : Value
  | vtuple (xs : List Value) : Value
  | vdict (es : List (Chars × Value)) : Value
  | vmodel (fields : List (Chars × Value)) : Value
  | vother (tag : Nat) : Value

mutual

/-- Embeds `_serialize_value`: Pydantic models become field dicts (`model_dump`),
lists and tuples become lists of serialized elements, dicts keep their keys
with serialized values, and anything else passes through unchanged. -/
def serializeValue : Value → Value
  | .vmodel fs => .vdict (serializeFields fs)
  | .vlist xs => .vlist (serializeList xs)
  | .vdict es => .vdict (serializeFields es)
  | .vtuple xs => .vlist (serializeList xs)
  | .vnone => .vnone
  | .vint n => .vint n
  | .vstr s => .vstr s
  | .vbool b => .vbool b
  | .vother t => .vother t

/-- Apply `serializeValue` to each list element. -/
def serializeList : List Value → List Value
  | [] => []
  | v :: vs => serializeValue v :: serializeList vs

/-- Apply `serializeValue` to each dict/model field value. -/
def serializeFields : List (Chars × Value) → List (Chars × Value)
  | [] => []
  | (k, v) :: es => (k, serializeValue v) :: serializeFields es

end

/-! ## Signature extraction (`SignatureManager.extract_signature`) -/

/-- One declared parameter: its name, annotation, and default value
(`none` models `inspect.Parameter.empty`, i.e. no default). -/
structure Param where
  name : Chars
  annotation : PyType
  default : Option Value

/-- The input schema: a `type: object` document whose properties are every
parameter except `self`, with a `required` list naming the parameters that
lack a default — the list is added only when non-empty. -/
def extractInput (params : List Param) : Json :=
  let ps := params.filter (fun p => !(p.name == "self".data))
  let props := ps.map (fun p => (p.name, translate p.annotation))
  let req := (ps.filter (fun p => p.default.isNone)).map (fun p => p.name)
  .obj (("type".data, Json.str "object".data) :: ("properties".data, Json.obj props) ::
    (if req.isEmpty then [] else [("required".data, Json.arr (req.map Json.str))]))

/-- The wrap test on the translated return type:
`output_schema.get("type") != "object" and "anyOf" not in output_schema`. -/
def wrapCond (j : Json) : Bool :=
  (match jget j "type".data with
   | some (.str s) => !(s == "object".data)
   | _ => true) && !(jhasKey j "anyOf".data)

/-- The output schema: translate the return annotation and, when the wrap
test holds, wrap it as `{"type": "object", "properties": {"result": ...}}`. -/
def extractOutput (ret : PyType) : Json :=
  let o := translate ret
  if wrapCond o then
    .obj [("type".data, Json.str "object".data),
          ("properties".data, Json.obj [("result".data, o)])]
  else o

/-- The combined document `compute_hash` serializes:
`{"function_name": ..., "input": ..., "output": ...}`. -/
def combinedDoc (inputSchema outputSchema : Json) (functionName : Chars) : Json :=
  .obj [("function_name".data, Json.str functionName),
        ("input".data, inputSchema),
        ("output".data, outputSchema)]

/-- Embeds `SignatureManager.compute_hash`: SHA-256 hex digest of the UTF-8 bytes
of the canonical (key-sorted) JSON serialization of the combined document. -/
def computeHash (inputSchema outputSchema : Json) (functionName : Chars) : Chars :=
  sha256hex (utf8 (dumps (combinedDoc inputSchema outputSchema functionName)))

/-! ## Scope resolution (`blackbox`, `f"{func.__module__}.{func.__qualname__}"`) -/

/-- A decoration site: the declaring module, the enclosing class/function
path and local name (which Python joins into `__qualname__`), the declared
parameters, and the return annotation. -/
structure FuncDecl where
  module : Chars
  classPath : List Chars
  localName : Chars
  params : List Param
  ret : PyType

/-- Join path segments with dots. -/
def joinDots : List Chars → Chars
  | [] => []
  | [s] => s
  | s :: t => s ++ '.' :: joinDots t

/-- Python `func.__qualname__`: every enclosing class/function segment, then the
local name, dot-joined — as Python introspection reports lexical nesting. -/
def qualName (d : FuncDecl) : Chars := joinDots (d.classPath ++ [d.localName])

/-- The resolved scope name `f"{func.__module__}.{func.__qualname__}"`. -/
def scopeName (d : FuncDecl) : Chars := d.module ++ '.' :: qualName d

/-- The input schema a decoration site extracts. -/
def inputSchemaOf (d : FuncDecl) : Json := extractInput d.params

/-- The output schema a decoration site extracts. -/
def outputSchemaOf (d : FuncDecl) : Json := extractOutput d.ret

/-- The signature hash computed at wrap time
(`extract_signature_object` + `compute_hash`). -/
def signatureHash (d : FuncDecl) : Chars :=
  computeHash (inputSchemaOf d) (outputSchemaOf d) (scopeName d)

/-- The `Signature` object built once per decoration site
(`SignatureManager.extract_signature_object`). -/
structure Signature where
  signatureHash : Chars
  inputSchema : Json
  outputSchema : Json
  functionName : Chars
  description : Option Chars

/-- Embeds `extract_signature_object`: schemas, hash, and metadata for a site. -/
def extractSignatureObject (d : FuncDecl) (description : Option Chars) : Signature :=
  { signatureHash := signatureHash d
    inputSchema := inputSchemaOf d
    outputSchema := outputSchemaOf d
    functionName := scopeName d
    description := description }

/-! ## Configuration (`config.py`) and the HTTP sink (`api_client.py`) -/

/-- Python exceptions the embedded paths can raise: the configuration
`RuntimeError` and arbitrary exceptions out of the wrapped function. -/
inductive PyExc where
  | runtimeError (msg : Chars) : PyExc
  | userError (tag : Nat) : PyExc
deriving DecidableEq

/-- The module-level configuration state set by `set_config`. -/
structure Config where
  initialized : Bool
  projectKey : Option Chars
  apiServer : Chars

/-- The `RuntimeError` raised when the SDK has not been initialized. -/
def configError : PyExc :=
  .runtimeError "Blackbox SDK not initialized. Call blackbox.init first.".data

/-- Embeds `get_project_key`: raises `RuntimeError` unless `set_config` ran. -/
def getProjectKey (c : Config) : Except PyExc (Option Chars) :=
  if c.initialized then .ok c.projectKey else .error configError

/-- The outcome of the `httpx.post` call inside `send_example`: success, an
HTTP status error, a network error, or any other exception — everything the
`try` block can observe. -/
inductive HttpOutcome where
  | success : HttpOutcome
  | statusError (code : Nat) : HttpOutcome
  | requestError : HttpOutcome
  | otherError : HttpOutcome
deriving DecidableEq

/-- Embeds `api_client.send_example`: look up the project key (raising if the SDK
is uninitialized — this happens before the `try`), then post; every failure
inside the `try` is caught and logged, returning `False`. -/
def sendExample (c : Config) (http : HttpOutcome) (sig : Signature)
    (input : List (Chars × Value)) (output : Value)
    (otelTraceId otelSpanId parentSpanId : Option Chars) : Except PyExc Bool :=
  match getProjectKey c with
  | .error e => .error e
  | .ok _ =>
    match http with
    | .success => .ok true
    | .statusError _ => .ok false
    | .requestError => .ok false
    | .otherError => .ok false

/-- Embeds `storage.save_example`: a passthrough to `send_example`. -/
def saveExample (c : Config) (http : HttpOutcome) (sig : Signature)
    (input : List (Chars × Value)) (output : Value)
    (otelTraceId otelSpanId parentSpanId : Option Chars) : Except PyExc Bool :=
  sendExample c http sig input output otelTraceId otelSpanId parentSpanId

/-- Embeds `capture.capture_example`: forwards to `save_example` and returns its
success flag (the debug log on failure has no observable effect). -/
def captureExample (c : Config) (http : HttpOutcome) (sig : Signature)
    (input : List (Chars × Value)) (output : Value)
    (otelTraceId otelSpanId parentSpanId : Option Chars) : Except PyExc Bool :=
  saveExample c http sig input output otelTraceId otelSpanId parentSpanId

/-! ## Trace context (`_get_trace_context`) -/

/-- The ambient OpenTelemetry span: validity flag and the hex-rendered
trace, span, and optional parent-span identifiers. -/
structure SpanCtx where
  valid : Bool
  traceId : Chars
  spanId : Chars
  parent : Option Chars

/-- Embeds `_get_trace_context`: the current identifiers when a valid span is
active, all-`none` otherwise — never an error. -/
def getTraceContext : Option SpanCtx → Option Chars × Option Chars × Option Chars
  | some sp => if sp.valid then (some sp.traceId, some sp.spanId, sp.parent) else (none, none, none)
  | none => (none, none, none)

/-! ## Argument binding (`_build_input_dict`) -/

/-- Python `inspect.Signature.bind(*args, **kwargs)` followed by
`apply_defaults()`: positional arguments fill the leading parameters,
keywords fill the rest by name, defaults fill what remains; `none` models
the `TypeError` raised on too many positionals, a keyword that repeats a
positional, an unknown keyword, or a missing required argument. The result
lists every parameter in declaration order with its bound value. -/
def sigBind (params : List Param) (args : List Value)
    (kwargs : List (Chars × Value)) : Option (List (Chars × Value)) :=
  if params.length < args.length then none
  else if kwargs.any (fun kv =>
      ((params.take args.length).map (fun p => p.name)).contains kv.1) then none
  else if kwargs.any (fun kv =>
      !((params.map (fun p => p.name)).contains kv.1)) then none
  else if (params.drop args.length).any (fun p =>
      p.default.isNone && (kwargs.lookup p.name).isNone) then none
  else some
    (((params.take args.length).zip args).map (fun pa => (pa.1.name, pa.2)) ++
      (params.drop args.length).map (fun p =>
        (p.name, match kwargs.lookup p.name with
                 | some v => v
                 | none => p.default.getD .vnone)))

/-- Embeds `BlackboxFunction._build_input_dict`: bind arguments to parameter
names, drop `self`, and serialize each value; if binding raises, fall back
to `argN` keys for positionals and keyword names for keywords. -/
def buildInputDict (params : List Param) (args : List Value)
    (kwargs : List (Chars × Value)) : List (Chars × Value) :=
  match sigBind params args kwargs with
  | some bound =>
    (bound.filter (fun kv => !(kv.1 == "self".data))).map
      (fun kv => (kv.1, serializeValue kv.2))
  | none =>
    args.enum.map (fun ia => ("arg".data ++ natChars ia.1, serializeValue ia.2)) ++
      kwargs.map (fun kv => (kv.1, serializeValue kv.2))

/-! ## The wrapped callable (`BlackboxFunction`) and its call paths -/

/-- The per-call state machine steps, at the granularity of
`_sync_call`/`_execute_sync`: span entry, the call to the original
function, argument binding, output serialization, trace-context lookup,
delivery to the sink, and the final return. -/
inductive Ev where
  | enter : Ev
  | invoke : Ev
  | bindArgs : Ev
  | serializeOut : Ev
  | traceLookup : Ev
  | emit : Ev
  | ret : Ev
deriving DecidableEq

/-- A wrapped function: the original callable (as its observable behavior
on given arguments), its parameter list, and the wrap-time `Signature`. -/
structure BlackboxFunction where
  impl : List Value → List (Chars × Value) → Except PyExc Value
  params : List Param
  signature : Signature

/-- Embeds `blackbox(func)`: resolve the scope name, extract the signature once,
and build the wrapper. -/
def blackboxWrap (d : FuncDecl)
    (impl : List Value → List (Chars × Value) → Except PyExc Value)
    (description : Option Chars) : BlackboxFunction :=
  { impl := impl, params := d.params
    signature := extractSignatureObject d description }

/-- The ambient world one call runs in: the configuration, how the HTTP
post would turn out, and the current span. -/
structure CallEnv where
  cfg : Config
  http : HttpOutcome
  span : Option SpanCtx

/-- Embeds `BlackboxFunction._execute_sync`, with the order of effects recorded:
call the original function first (an exception propagates at once and
skips everything else), then build the input dict, serialize the output,
read the trace context, and deliver the capture; the original return value
comes back unchanged. -/
def executeSync (env : CallEnv) (bf : BlackboxFunction) (args : List Value)
    (kwargs : List (Chars × Value)) : Except PyExc Value × List Ev :=
  match bf.impl args kwargs with
  | .error e => (.error e, [.invoke])
  | .ok outputData =>
    let inputDict := buildInputDict bf.params args kwargs
    let outputDict := serializeValue outputData
    let tct := getTraceContext env.span
    match captureExample env.cfg env.http bf.signature inputDict outputDict
        tct.1 tct.2.1 tct.2.2 with
    | .error e => (.error e, [.invoke, .bindArgs, .serializeOut, .traceLookup, .emit])
    | .ok _ => (.ok outputData, [.invoke, .bindArgs, .serializeOut, .traceLookup, .emit, .ret])

/-- Embeds `BlackboxFunction._sync_call`: open the span, then run
`_execute_sync`. -/
def syncCall (env : CallEnv) (bf : BlackboxFunction) (args : List Value)
    (kwargs : List (Chars × Value)) : Except PyExc Value × List Ev :=
  let r := executeSync env bf args kwargs
  (r.1, .enter :: r.2)

/-- Embeds `BlackboxFunction._execute_async`: the same sequence as the sync path,
with the invocation awaited. -/
def executeAsync (env : CallEnv) (bf : BlackboxFunction) (args : List Value)
    (kwargs : List (Chars × Value)) : Except PyExc Value × List Ev :=
  match bf.impl args kwargs with
  | .error e => (.error e, [.invoke])
  | .ok outputData =>
    let inputDict := buildInputDict bf.params args kwargs
    let outputDict := serializeValue outputData
    let tct := getTraceContext env.span
    match captureExample env.cfg env.http bf.signature inputDict outputDict
        tct.1 tct.2.1 tct.2.2 with
    | .error e => (.error e, [.invoke, .bindArgs, .serializeOut, .traceLookup, .emit])
    | .ok _ => (.ok outputData, [.invoke, .bindArgs, .serializeOut, .traceLookup, .emit, .ret])

/-- Embeds `BlackboxFunction._async_call`: open the span, then await
`_execute_async`. -/
def asyncCall (env : CallEnv) (bf : BlackboxFunction) (args : List Value)
    (kwargs : List (Chars × Value)) : Except PyExc Value × List Ev :=
  let r := executeAsync env bf args kwargs
  (r.1, .enter :: r.2)

/-! ## Observation helpers over schema documents -/

/-- Does the document carry `"type": "object"`? -/
def typeIsObject (j : Json) : Bool :=
  match jget j "type".data with
  | some (.str s) => s == "object".data
  | _ => false

/-- Does the document carry an `anyOf` member? -/
def hasAnyOf (j : Json) : Bool := jhasKey j "anyOf".data

/-- The spec's `record` variant, read on the emitted JSON-schema form: a
structured document with named fields — `"type": "object"` together with a
`properties` map. A bare mapping (`object` without named fields) is not a
record. -/
def specIsRecord (j : Json) : Bool := typeIsObject j && jhasKey j "properties".data

/-- The spec's `union` variant, read on the emitted JSON-schema form: an
`anyOf` document. -/
def specIsUnion (j : Json) : Bool := hasAnyOf j

/-- The property names of a schema document. -/
def propNames (j : Json) : List Chars :=
  match jget j "properties".data with
  | some (.obj es) => es.map Prod.fst
  | _ => []

/-- The string payload of a JSON string node. -/
def jsonStrOpt : Json → Option Chars
  | .str s => some s
  | _ => none

/-- The names listed under a schema document's `required` member. -/
def requiredNames (j : Json) : List Chars :=
  match jget j "required".data with
  | some (.arr xs) => xs.filterMap jsonStrOpt
  | _ => []

/-- The canonical hash preimage of a decoration site: the serialized
combined document whose SHA-256 digest is the signature hash. -/
def hashPreimage (d : FuncDecl) : Chars :=
  dumps (combinedDoc (inputSchemaOf d) (outputSchemaOf d) (scopeName d))

/-- Printable ASCII characters that JSON string escaping leaves alone:
at or above the space, below `0x7f`, and neither the quote nor the
backslash. Identifier characters are all plain. -/
def plainChar (c : Char) : Prop :=
  32 ≤ c.toNat ∧ c.toNat < 127 ∧ c ≠ '"' ∧ c ≠ '\\'

instance (c : Char) : Decidable (plainChar c) := by
  unfold plainChar; infer_instance

/-- Read a byte list as a base-256 numeral (big-endian). -/
def base256 (l : List Nat) : Nat := l.foldl (fun a b => a * 256 + b) 0

/-- The serialized combined document up to the opening quote of the scope
name: `function_name` sorts first, so the scope name is the first value. -/
def preCombined : Chars := '{' :: dumpStr "function_name".data ++ [':', ' ', '"']

/-- The serialized combined document after the scope name: the closing
quote, then the `input` and `output` members and the closing brace. -/
def postCombined (i o : Json) : Chars :=
  ',' :: ' ' :: dumpStr "input".data ++ ':' :: ' ' :: dumpsRaw (nfSort i) ++
    ',' :: ' ' :: dumpStr "output".data ++ ':' :: ' ' :: dumpsRaw (nfSort o) ++ ['}']

/-- A method `f` on class `A` of module `m`, no parameters. -/
def dA : FuncDecl :=
  { module := ['m'], classPath := [['A']], localName := ['f'], params := [], ret := .noneAnnot }

/-- A method `f` on class `B` of module `m`, no parameters — same local
name and byte-identical schemas as `dA`. -/
def dB : FuncDecl :=
  { module := ['m'], classPath := [['B']], localName := ['f'], params := [], ret := .noneAnnot }

/-- A family of decoration sites that differ only in the enclosing class
name (`C`, `CC`, `CCC`, ...): same module, same local name, identical
(empty) parameters and return annotation. -/
def scopeFamily (nn : Nat) : FuncDecl :=
  { module := ['m'], classPath := [List.replicate (nn + 1) 'C'],
    localName := ['f'], params := [], ret := .noneAnnot }

/-! ## Concrete fixtures used by witnesses and counterexamples -/

/-- An initialized configuration. -/
def cfgOn : Config := { initialized := true, projectKey := some ['k'], apiServer := ['s'] }

/-- An environment whose sink accepts the capture. -/
def envOk : CallEnv := { cfg := cfgOn, http := .success, span := none }

/-- An environment whose sink always fails with a network error. -/
def envDown : CallEnv := { cfg := cfgOn, http := .requestError, span := none }

/-- A minimal decoration site: module `m`, free function `f`, no
parameters, no return annotation. -/
def declFix : FuncDecl :=
  { module := ['m'], classPath := [], localName := ['f'], params := [], ret := .noneAnnot }

/-- The wrapper of `declFix` around a function that returns `1`. -/
def bfFix : BlackboxFunction := blackboxWrap declFix (fun _ _ => .ok (.vint 1)) none

/-- A required parameter `x: int`. -/
def pX : Param := { name := ['x'], annotation := .pint, default := none }

/-- A defaulted parameter `x: int = 0`. -/
def pD : Param := { name := ['x'], annotation := .pint, default := some (.vint 0) }

/-- A receiver parameter `self`. -/
def pSelf : Param := { name := "self".data, annotation := .noneAnnot, default := none }

/-- A decoration site with the single required parameter `x: int`. -/
def declPX : FuncDecl :=
  { module := ['m'], classPath := [], localName := ['g'], params := [pX], ret := .pint }

/-- The wrapper of `declPX` around a function that returns `2`. -/
def bfPX : BlackboxFunction := blackboxWrap declPX (fun _ _ => .ok (.vint 2)) none

/-! ## Helper lemmas -/

/-- With the SDK initialized, `capture_example` returns a boolean and never
raises: `get_project_key` succeeds and every HTTP outcome is caught. -/
theorem captureExample_ok (c : Config) (http : HttpOutcome) (sig : Signature)
    (inp : List (Chars × Value)) (out : Value) (t s p : Option Chars)
    (hinit : c.initialized = true) :
    captureExample c http sig inp out t s p =
      .ok (match http with | .success => true | _ => false) := by
  cases http <;>
    simp [captureExample, saveExample, sendExample, getProjectKey, hinit]

/-- With the SDK initialized, the sync execution path hands back exactly
the original call's outcome. -/
theorem executeSync_fst (env : CallEnv) (bf : BlackboxFunction)
    (args : List Value) (kwargs : List (Chars × Value))
    (hinit : env.cfg.initialized = true) :
    (executeSync env bf args kwargs).1 = bf.impl args kwargs := by
  unfold executeSync
  cases h : bf.impl args kwargs with
  | error e => simp
  | ok out =>
    cases env.http <;>
      simp [captureExample, saveExample, sendExample, getProjectKey, hinit]

/-- With the SDK initialized, the async execution path hands back exactly
the original call's outcome. -/
theorem executeAsync_fst (env : CallEnv) (bf : BlackboxFunction)
    (args : List Value) (kwargs : List (Chars × Value))
    (hinit : env.cfg.initialized = true) :
    (executeAsync env bf args kwargs).1 = bf.impl args kwargs := by
  unfold executeAsync
  cases h : bf.impl args kwargs with
  | error e => simp
  | ok out =>
    cases env.http <;>
      simp [captureExample, saveExample, sendExample, getProjectKey, hinit]

/-- With the SDK initialized, a wrapped sync call returns/raises exactly
what the original does. -/
theorem syncCall_fst (env : CallEnv) (bf : BlackboxFunction)
    (args : List Value) (kwargs : List (Chars × Value))
    (hinit : env.cfg.initialized = true) :
    (syncCall env bf args kwargs).1 = bf.impl args kwargs := by
  simpa [syncCall] using executeSync_fst env bf args kwargs hinit

/-! ## Claim theorems -/

/-- C1: with the SDK initialized, a wrapped synchronous call is
observationally equivalent to the unwrapped function: it returns exactly
the value the original returns and raises exactly the exception the
original raises, for every argument list. -/
theorem wrapped_sync_call_transparent (env : CallEnv) (bf : BlackboxFunction)
    (args : List Value) (kwargs : List (Chars × Value))
    (hinit : env.cfg.initialized = true) :
    (syncCall env bf args kwargs).1 = bf.impl args kwargs :=
  syncCall_fst env bf args kwargs hinit

/-- C1 witness: the equivalence at a concrete initialized environment,
wrapper, and argument list. -/
theorem wrapped_sync_call_transparent_witness :
    (syncCall envOk bfFix [] []).1 = bfFix.impl [] [] :=
  wrapped_sync_call_transparent envOk bfFix [] [] rfl

/-- C3: with the SDK initialized, every failing delivery is swallowed —
`send_example` returns `.ok false` (no exception) on HTTP status errors,
network errors, and unexpected errors — and across arbitrarily many calls
against an always-failing sink every wrapped call still returns/raises
exactly what the original does. -/
theorem sink_failure_swallowed (c : Config) (http : HttpOutcome)
    (hinit : c.initialized = true) (hfail : http ≠ .success) :
    (∀ (sig : Signature) (inp : List (Chars × Value)) (out : Value)
       (t s p : Option Chars),
       sendExample c http sig inp out t s p = .ok false) ∧
    (∀ (span : Option SpanCtx) (bf : BlackboxFunction)
       (calls : List (List Value × List (Chars × Value))),
       calls.map (fun ak => (syncCall ⟨c, http, span⟩ bf ak.1 ak.2).1) =
         calls.map (fun ak => bf.impl ak.1 ak.2)) := by
  constructor
  · intro sig inp out t s p
    cases http with
    | success => exact absurd rfl hfail
    | statusError code => simp [sendExample, getProjectKey, hinit]
    | requestError => simp [sendExample, getProjectKey, hinit]
    | otherError => simp [sendExample, getProjectKey, hinit]
  · intro span bf calls
    exact List.map_congr_left fun ak _ => syncCall_fst ⟨c, http, span⟩ bf ak.1 ak.2 hinit

/-- C3 witness: the swallowing at a concrete failing sink and a concrete
repeated call list. -/
theorem sink_failure_swallowed_witness :
    (sendExample cfgOn .requestError bfFix.signature [] .vnone none none none = .ok false) ∧
    ([([], []), ([], [])].map
        (fun ak => (syncCall ⟨cfgOn, .requestError, none⟩ bfFix ak.1 ak.2).1) =
      [([], []), ([], [])].map (fun ak => bfFix.impl ak.1 ak.2)) := by
  have h := sink_failure_swallowed cfgOn .requestError rfl (by decide)
  exact ⟨h.1 bfFix.signature [] .vnone none none none, h.2 none bfFix [([], []), ([], [])]⟩

/-- C4: when the original function raises, the exception propagates
unchanged through both the sync and the async path, and capture is skipped
entirely — no binding, serialization, trace-context lookup, or delivery
step runs after the invocation. -/
theorem invocation_error_skips_capture (env : CallEnv) (bf : BlackboxFunction)
    (args : List Value) (kwargs : List (Chars × Value)) (e : PyExc)
    (h : bf.impl args kwargs = .error e) :
    syncCall env bf args kwargs = (.error e, [.enter, .invoke]) ∧
    asyncCall env bf args kwargs = (.error e, [.enter, .invoke]) ∧
    Ev.bindArgs ∉ (syncCall env bf args kwargs).2 ∧
    Ev.serializeOut ∉ (syncCall env bf args kwargs).2 ∧
    Ev.traceLookup ∉ (syncCall env bf args kwargs).2 ∧
    Ev.emit ∉ (syncCall env bf args kwargs).2 ∧
    Ev.emit ∉ (asyncCall env bf args kwargs).2 := by
  have hs : syncCall env bf args kwargs = (.error e, [.enter, .invoke]) := by
    simp [syncCall, executeSync, h]
  have ha : asyncCall env bf args kwargs = (.error e, [.enter, .invoke]) := by
    simp [asyncCall, executeAsync, h]
  refine ⟨hs, ha, ?_, ?_, ?_, ?_, ?_⟩ <;> simp [hs, ha]

/-- C4 witness: a concrete raising call propagates its exception with the
two-step trace. -/
theorem invocation_error_skips_capture_witness :
    syncCall envOk ⟨fun _ _ => .error (.userError 7), [], bfFix.signature⟩ [] [] =
      (.error (.userError 7), [.enter, .invoke]) :=
  (invocation_error_skips_capture envOk
    ⟨fun _ _ => .error (.userError 7), [], bfFix.signature⟩ [] [] (.userError 7) rfl).1

/-- C5 counterexample: the claimed order `ENTER → BIND_ARGS → INVOKE → ...`
fails on a concrete successful call — the code invokes the original
function first (`output_data = self.func(...)`) and binds arguments only
afterwards, so `INVOKE` strictly precedes `BIND_ARGS` in the recorded
trace. -/
theorem state_machine_order_counterexample :
    (syncCall envOk bfFix [] []).2 =
      [.enter, .invoke, .bindArgs, .serializeOut, .traceLookup, .emit, .ret] ∧
    (syncCall envOk bfFix [] []).2.indexOf Ev.invoke <
      (syncCall envOk bfFix [] []).2.indexOf Ev.bindArgs := by
  have h : (syncCall envOk bfFix [] []).2 =
      [.enter, .invoke, .bindArgs, .serializeOut, .traceLookup, .emit, .ret] := by
    simp [syncCall, executeSync, bfFix, blackboxWrap, envOk, cfgOn,
      captureExample, saveExample, sendExample, getProjectKey]
  exact ⟨h, by rw [h]; decide⟩

/-- C5 amended: every successful initialized call proceeds in the order
`ENTER → INVOKE → BIND_ARGS → SERIALIZE → EMIT → RETURN` — binding of the
call arguments happens after the original function is invoked, not
before. -/
theorem state_machine_order_amended (env : CallEnv) (bf : BlackboxFunction)
    (args : List Value) (kwargs : List (Chars × Value)) (out : Value)
    (hinit : env.cfg.initialized = true) (hok : bf.impl args kwargs = .ok out) :
    (syncCall env bf args kwargs).2 =
      [.enter, .invoke, .bindArgs, .serializeOut, .traceLookup, .emit, .ret] ∧
    ((syncCall env bf args kwargs).2.indexOf Ev.enter <
      (syncCall env bf args kwargs).2.indexOf Ev.invoke ∧
     (syncCall env bf args kwargs).2.indexOf Ev.invoke <
      (syncCall env bf args kwargs).2.indexOf Ev.bindArgs ∧
     (syncCall env bf args kwargs).2.indexOf Ev.bindArgs <
      (syncCall env bf args kwargs).2.indexOf Ev.serializeOut ∧
     (syncCall env bf args kwargs).2.indexOf Ev.serializeOut <
      (syncCall env bf args kwargs).2.indexOf Ev.emit ∧
     (syncCall env bf args kwargs).2.indexOf Ev.emit <
      (syncCall env bf args kwargs).2.indexOf Ev.ret) := by
  have h : (syncCall env bf args kwargs).2 =
      [.enter, .invoke, .bindArgs, .serializeOut, .traceLookup, .emit, .ret] := by
    unfold syncCall executeSync
    rw [hok]
    cases env.http <;>
      simp [captureExample, saveExample, sendExample, getProjectKey, hinit]
  exact ⟨h, by rw [h]; exact ⟨by decide, by decide, by decide, by decide, by decide⟩⟩

/-- C5 amended witness: the corrected order at a concrete call. -/
theorem state_machine_order_amended_witness :
    (syncCall envOk bfFix [] []).2 =
      [.enter, .invoke, .bindArgs, .serializeOut, .traceLookup, .emit, .ret] :=
  (state_machine_order_amended envOk bfFix [] [] (.vint 1) rfl rfl).1

/-- C9: when binding raises, the captured input falls back to `argN` keys
for positional arguments and the keyword names for keyword arguments, the
failure never reaches the caller, and the call is not aborted. -/
theorem binding_fallback (params : List Param) (args : List Value)
    (kwargs : List (Chars × Value))
    (hfail : sigBind params args kwargs = none) :
    ((buildInputDict params args kwargs).map Prod.fst =
      (List.range args.length).map (fun i => "arg".data ++ natChars i) ++
        kwargs.map Prod.fst) ∧
    (∀ (env : CallEnv) (bf : BlackboxFunction), bf.params = params →
      env.cfg.initialized = true →
      (syncCall env bf args kwargs).1 = bf.impl args kwargs) := by
  constructor
  · unfold buildInputDict
    rw [hfail]
    simp only [List.map_append, List.map_map]
    congr 1
    rw [← List.enum_map_fst args, List.map_map]
    rfl
  · intro env bf _ h
    exact syncCall_fst env bf args kwargs h

/-- C9 witness: two positionals against a single declared parameter make
binding fail; the fallback keys and the undisturbed call at a concrete
wrapper. -/
theorem binding_fallback_witness :
    ((buildInputDict [pX] [.vnone, .vnone] []).map Prod.fst =
      (List.range 2).map (fun i => "arg".data ++ natChars i) ++
        ([] : List (Chars × Value)).map Prod.fst) ∧
    (syncCall envOk bfPX [.vnone, .vnone] []).1 = bfPX.impl [.vnone, .vnone] [] := by
  have h := binding_fallback [pX] [.vnone, .vnone] [] rfl
  exact ⟨h.1, h.2 envOk bfPX rfl rfl⟩

/-- A successful bind lists every declared parameter, in declaration
order. -/
theorem sigBind_keys (params : List Param) (args : List Value)
    (kwargs : List (Chars × Value)) (bound : List (Chars × Value))
    (h : sigBind params args kwargs = some bound) :
    bound.map Prod.fst = params.map (fun p => p.name) := by
  unfold sigBind at h
  split_ifs at h
  injection h with h
  subst h
  have hlen : (params.take args.length).length ≤ args.length := by
    simp [List.length_take]
  have hA : ((params.take args.length).zip args).map (fun pa => pa.1.name) =
      (params.take args.length).map (fun p => p.name) := by
    have h0 := List.map_fst_zip (params.take args.length) args hlen
    calc ((params.take args.length).zip args).map (fun pa => pa.1.name)
        = (((params.take args.length).zip args).map Prod.fst).map (fun p => p.name) := by
          rw [List.map_map]; rfl
      _ = (params.take args.length).map (fun p => p.name) := by rw [h0]
  rw [List.map_append, List.map_map, List.map_map]
  show ((params.take args.length).zip args).map (fun pa => pa.1.name) ++
      (params.drop args.length).map (fun p => p.name) = params.map fun p => p.name
  rw [hA, ← List.map_append, List.take_append_drop]

/-- The `argN` fallback keys never spell `self`. -/
theorem argN_ne_self (i : Nat) : ("arg".data ++ natChars i) ≠ "self".data := by
  intro h
  injection h with h1 _
  exact absurd h1 (by decide)

/-- Lookup skips an entry whose key differs. -/
theorem jget_obj_cons (k : Chars) (e : Chars × Json) (es : List (Chars × Json))
    (hne : (e.1 == k) = false) : jget (.obj (e :: es)) k = jget (.obj es) k := by
  simp [jget, List.find?, hne]

/-- Lookup finds the head entry with the matching key. -/
theorem jget_obj_head (k : Chars) (v : Json) (es : List (Chars × Json)) :
    jget (.obj ((k, v) :: es)) k = some v := by
  simp [jget, List.find?]

/-- Reading back the strings of a string array. -/
theorem filterMap_str_map (l : List Chars) :
    (l.map Json.str).filterMap jsonStrOpt = l := by
  induction l with
  | nil => rfl
  | cons a t ih => simpa [jsonStrOpt] using ih

/-- The extracted input schema, entry by entry. -/
theorem extractInput_eq (params : List Param) :
    extractInput params =
      .obj (("type".data, Json.str "object".data) ::
        ("properties".data, Json.obj
          ((params.filter (fun p => !(p.name == "self".data))).map
            (fun p => (p.name, translate p.annotation)))) ::
        (if (((params.filter (fun p => !(p.name == "self".data))).filter
              (fun p => p.default.isNone)).map (fun p => p.name)).isEmpty then []
         else [("required".data, Json.arr
            ((((params.filter (fun p => !(p.name == "self".data))).filter
              (fun p => p.default.isNone)).map (fun p => p.name)).map Json.str))])) := by
  rfl

/-- The `required` names of an extracted input schema are exactly the
non-receiver parameters without a default. -/
theorem requiredNames_extractInput (params : List Param) :
    requiredNames (extractInput params) =
      ((params.filter (fun p => !(p.name == "self".data))).filter
        (fun p => p.default.isNone)).map (fun p => p.name) := by
  unfold requiredNames
  rw [extractInput_eq,
    jget_obj_cons "required".data ("type".data, Json.str "object".data) _ rfl,
    jget_obj_cons "required".data ("properties".data, Json.obj
      ((params.filter (fun p => !(p.name == "self".data))).map
        (fun p => (p.name, translate p.annotation)))) _ rfl]
  by_cases hempty : (((params.filter (fun p => !(p.name == "self".data))).filter
      (fun p => p.default.isNone)).map (fun p : Param => p.name)).isEmpty
  · rw [if_pos hempty]
    rw [List.isEmpty_iff] at hempty
    rw [hempty]
    rfl
  · rw [if_neg hempty, jget_obj_head]
    exact filterMap_str_map _

/-- The property names of an extracted input schema are exactly the
non-receiver parameter names. -/
theorem propNames_extractInput (params : List Param) :
    propNames (extractInput params) =
      (params.filter (fun p => !(p.name == "self".data))).map (fun p => p.name) := by
  unfold propNames
  rw [extractInput_eq,
    jget_obj_cons "properties".data ("type".data, Json.str "object".data) _ rfl,
    jget_obj_head]
  show ((params.filter (fun p => !(p.name == "self".data))).map
      (fun p => (p.name, translate p.annotation))).map Prod.fst =
    (params.filter (fun p => !(p.name == "self".data))).map (fun p => p.name)
  rw [List.map_map]
  rfl

/-- C8: the captured input of a call never contains an entry for the
receiver parameter `self` (given that the caller did not pass a keyword
literally named `self`, which the original function would reject), the
bound path captures exactly the non-receiver parameters, and the input
schema likewise contains no `self` property and no `self` requirement. -/
theorem receiver_excluded (params : List Param) (args : List Value)
    (kwargs : List (Chars × Value))
    (hkw : "self".data ∉ kwargs.map Prod.fst) :
    ("self".data ∉ (buildInputDict params args kwargs).map Prod.fst) ∧
    (∀ bound, sigBind params args kwargs = some bound →
      (buildInputDict params args kwargs).map Prod.fst =
        (params.filter (fun p => !(p.name == "self".data))).map (fun p => p.name)) ∧
    ("self".data ∉ propNames (extractInput params)) ∧
    ("self".data ∉ requiredNames (extractInput params)) ∧
    (propNames (extractInput params) =
      (params.filter (fun p => !(p.name == "self".data))).map (fun p => p.name)) := by
  have hnotinfilter : ∀ (l : List Param),
      "self".data ∉ (l.filter (fun p => !(p.name == "self".data))).map
        (fun p : Param => p.name) := by
    intro l hmem
    obtain ⟨p, hp, hname⟩ := List.mem_map.mp hmem
    have := (List.mem_filter.mp hp).2
    rw [hname] at this
    simp at this
  have hbound : ∀ bound, sigBind params args kwargs = some bound →
      (buildInputDict params args kwargs).map Prod.fst =
        (params.filter (fun p => !(p.name == "self".data))).map (fun p => p.name) := by
    intro bound hb
    unfold buildInputDict
    rw [hb]
    have hkeys := sigBind_keys params args kwargs bound hb
    calc ((bound.filter (fun kv => !(kv.1 == "self".data))).map
            (fun kv => (kv.1, serializeValue kv.2))).map Prod.fst
        = (bound.filter (fun kv => !(kv.1 == "self".data))).map Prod.fst := by
          rw [List.map_map]; rfl
      _ = (bound.map Prod.fst).filter (fun k => !(k == "self".data)) := by
          rw [List.filter_map]; rfl
      _ = (params.map (fun p : Param => p.name)).filter (fun k => !(k == "self".data)) := by
          rw [hkeys]
      _ = (params.filter (fun p => !(p.name == "self".data))).map (fun p => p.name) := by
          rw [List.filter_map]; rfl
  have hnotin : "self".data ∉ (buildInputDict params args kwargs).map Prod.fst := by
    cases hb : sigBind params args kwargs with
    | some bound => rw [hbound bound hb]; exact hnotinfilter params
    | none =>
      unfold buildInputDict
      rw [hb]
      intro hmem
      rw [List.map_append] at hmem
      rcases List.mem_append.mp hmem with hl | hr
      · obtain ⟨kv, hkvm, hkv⟩ := List.mem_map.mp hl
        obtain ⟨ia, _, rfl⟩ := List.mem_map.mp hkvm
        exact argN_ne_self ia.1 hkv
      · obtain ⟨kv, hkvm, hkv⟩ := List.mem_map.mp hr
        obtain ⟨q, hqm, rfl⟩ := List.mem_map.mp hkvm
        exact hkw (List.mem_map.mpr ⟨q, hqm, hkv⟩)
  refine ⟨hnotin, hbound, ?_, ?_, propNames_extractInput params⟩
  · rw [propNames_extractInput]
    exact hnotinfilter params
  · rw [requiredNames_extractInput]
    intro hmem
    obtain ⟨p, hp, hname⟩ := List.mem_map.mp hmem
    have := (List.mem_filter.mp (List.mem_filter.mp hp).1).2
    rw [hname] at this
    simp at this

/-- C8 witness: a bound instance-method call with receiver first — no
`self` key in the captured input, none among the schema properties. -/
theorem receiver_excluded_witness :
    ("self".data ∉ (buildInputDict [pSelf, pX] [.vnone, .vint 3] []).map Prod.fst) ∧
    ("self".data ∉ propNames (extractInput [pSelf, pX])) := by
  have h := receiver_excluded [pSelf, pX] [.vnone, .vint 3] [] (by simp)
  exact ⟨h.1, h.2.2.1⟩

/-- The `required` entry of an extracted input schema: absent when every
non-receiver parameter has a default, otherwise the non-empty name list. -/
theorem jget_required_extractInput (params : List Param) :
    jget (extractInput params) "required".data =
      (if (((params.filter (fun p => !(p.name == "self".data))).filter
          (fun p => p.default.isNone)).map (fun p : Param => p.name)).isEmpty then none
       else some (Json.arr ((((params.filter (fun p => !(p.name == "self".data))).filter
          (fun p => p.default.isNone)).map (fun p => p.name)).map Json.str))) := by
  rw [extractInput_eq,
    jget_obj_cons "required".data ("type".data, Json.str "object".data) _ rfl,
    jget_obj_cons "required".data ("properties".data, Json.obj
      ((params.filter (fun p => !(p.name == "self".data))).map
        (fun p => (p.name, translate p.annotation)))) _ rfl]
  by_cases hempty : (((params.filter (fun p => !(p.name == "self".data))).filter
      (fun p => p.default.isNone)).map (fun p : Param => p.name)).isEmpty
  · rw [if_pos hempty, if_pos hempty]
    rfl
  · rw [if_neg hempty, if_neg hempty, jget_obj_head]

/-- C10: the input schema carries a `required` key exactly when some
non-receiver parameter lacks a default; when every parameter is defaulted
the key is entirely absent (never present as an empty list), and the
absent-versus-empty distinction survives into the canonical serialization
fed to the signature hash. -/
theorem required_absent_iff (params : List Param) :
    (jhasKey (extractInput params) "required".data = true ↔
      ∃ p ∈ params, ¬(p.name = "self".data) ∧ p.default = none) ∧
    (∀ v, jget (extractInput params) "required".data = some v → v ≠ .arr []) ∧
    (dumps (extractInput []) ≠
      dumps (setKey (extractInput []) "required".data (.arr []))) := by
  have hiff : (((params.filter (fun p => !(p.name == "self".data))).filter
      (fun p => p.default.isNone)).map (fun p : Param => p.name)).isEmpty = true ↔
      ¬ ∃ p ∈ params, ¬(p.name = "self".data) ∧ p.default = none := by
    rw [List.isEmpty_iff, List.map_eq_nil_iff, List.filter_eq_nil_iff]
    constructor
    · intro h ⟨p, hp, hname, hdef⟩
      have hpf : p ∈ params.filter (fun p => !(p.name == "self".data)) :=
        List.mem_filter.mpr ⟨hp, by simpa using hname⟩
      exact (by simpa [hdef] using h p hpf)
    · intro h p hpf hdef
      have hm := List.mem_filter.mp hpf
      exact h ⟨p, hm.1, by simpa using hm.2, Option.isNone_iff_eq_none.mp hdef⟩
  refine ⟨?_, ?_, ?_⟩
  · rw [jhasKey, jget_required_extractInput]
    by_cases hempty : (((params.filter (fun p => !(p.name == "self".data))).filter
        (fun p => p.default.isNone)).map (fun p : Param => p.name)).isEmpty
    · rw [if_pos hempty]
      constructor
      · intro habs
        simp at habs
      · intro hex
        exact absurd hex (hiff.mp hempty)
    · rw [if_neg hempty]
      constructor
      · intro _
        by_contra hno
        exact hempty (hiff.mpr hno)
      · intro _
        rfl
  · intro v hv
    rw [jget_required_extractInput] at hv
    by_cases hempty : (((params.filter (fun p => !(p.name == "self".data))).filter
        (fun p => p.default.isNone)).map (fun p : Param => p.name)).isEmpty
    · rw [if_pos hempty] at hv
      exact Option.noConfusion hv
    · rw [if_neg hempty] at hv
      injection hv with hv
      subst hv
      intro habs
      injection habs with habs
      rw [List.isEmpty_iff] at hempty
      exact hempty (List.map_eq_nil_iff.mp habs)
  · simp [dumps, nfSort, nfObj, nfList, sortk, insEntry, keyLe, dumpsRaw,
      dumpsObj, dumpsList, dumpStr, escStr, escChar, extractInput, setKey]

/-- C10 witness: with one required parameter the key is present and its
value is the non-empty name list. -/
theorem required_absent_iff_witness :
    (jhasKey (extractInput [pX]) "required".data = true ↔
      ∃ p ∈ [pX], ¬(p.name = "self".data) ∧ p.default = none) ∧
    Json.arr [Json.str ['x']] ≠ Json.arr [] := by
  refine ⟨(required_absent_iff [pX]).1, ?_⟩
  exact (required_absent_iff [pX]).2.1 (Json.arr [Json.str ['x']]) rfl

/-- C7 counterexample: a bare `dict` return annotation translates to a
plain mapping schema — neither a record (it has no named properties) nor a
union — yet the code leaves it unwrapped, because the wrap test only looks
at the `type` field being `object`; the synthetic `result` record the
claim demands never appears. -/
theorem output_wrap_counterexample :
    specIsRecord (translate .bdict) = false ∧
    specIsUnion (translate .bdict) = false ∧
    extractOutput .bdict = translate .bdict ∧
    jhasKey (extractOutput .bdict) "properties".data = false := by
  have h : translate .bdict = .obj [("type".data, Json.str "object".data)] := by
    simp [translate]
  refine ⟨by rw [h]; rfl, by rw [h]; rfl, ?_, ?_⟩
  · unfold extractOutput
    rw [h]
    rfl
  · unfold extractOutput
    rw [h]
    rfl

/-- C7 amended: output wrapping happens exactly when the translated return
schema's `type` field is not `object` and it carries no `anyOf` — so
records, plain mappings, and `anyOf` unions all stay unwrapped, and
everything else is wrapped as a synthetic record with the single property
`result`. -/
theorem output_wrap_amended (t : PyType) :
    (typeIsObject (translate t) = true ∨ hasAnyOf (translate t) = true →
      extractOutput t = translate t) ∧
    (typeIsObject (translate t) = false → hasAnyOf (translate t) = false →
      extractOutput t = .obj [("type".data, Json.str "object".data),
        ("properties".data, Json.obj [("result".data, translate t)])]) := by
  have hw : wrapCond (translate t) =
      (!typeIsObject (translate t) && !hasAnyOf (translate t)) := by
    unfold wrapCond typeIsObject hasAnyOf
    cases hj : jget (translate t) "type".data with
    | none => rfl
    | some v => cases v <;> simp
  constructor
  · intro h
    unfold extractOutput
    dsimp only
    rcases h with h | h <;> rw [hw, h] <;> simp
  · intro h1 h2
    unfold extractOutput
    dsimp only
    rw [hw, h1, h2]
    rfl

/-- C7 amended witness: a `str` return annotation is wrapped as the
single-property `result` record. -/
theorem output_wrap_amended_witness :
    extractOutput .pstr = .obj [("type".data, Json.str "object".data),
      ("properties".data, Json.obj [("result".data, translate .pstr)])] := by
  have h : translate .pstr = .obj [("type".data, Json.str "string".data)] := by
    simp [translate]
  refine (output_wrap_amended .pstr).2 ?_ ?_ <;> rw [h] <;> rfl

/-- Each byte rendered from a hash word is below 256. -/
theorem bytesOfWord_lt (w : Nat) : ∀ b ∈ bytesOfWord w, b < 256 := by
  intro b hb
  simp [bytesOfWord] at hb
  rcases hb with h | h | h | h <;> subst h <;> omega

/-- A SHA-256 digest is exactly 32 bytes. -/
theorem sha256_length (msg : List Nat) : (sha256 msg).length = 32 := by
  simp [sha256, bytesOfWord]

/-- Every byte of a SHA-256 digest is below 256. -/
theorem sha256_lt (msg : List Nat) : ∀ b ∈ sha256 msg, b < 256 := by
  intro b hb
  simp only [sha256, List.mem_append] at hb
  rcases hb with ((((((h | h) | h) | h) | h) | h) | h) | h <;>
    exact bytesOfWord_lt _ _ h

/-- Hex rendering doubles the byte count. -/
theorem hexBytes_length (bs : List Nat) : (hexBytes bs).length = 2 * bs.length := by
  induction bs with
  | nil => rfl
  | cons b t ih =>
    have ih2 : ((t.map hexByte).flatten).length = 2 * t.length := ih
    show (hexByte b ++ (t.map hexByte).flatten).length = 2 * (t.length + 1)
    have h2 : (hexByte b).length = 2 := rfl
    rw [List.length_append, ih2, h2]
    omega

/-- Hex digits of values below 16 are lowercase hex characters. -/
theorem hexDigit_mem : ∀ d, d < 16 → hexDigit d ∈ "0123456789abcdef".data := by
  decide

/-- C2: the signature hash is the lowercase-hex SHA-256 digest of the
canonical key-sorted serialization of the combined document — a 64-char
lowercase hex string — and it is a pure function of the triple: any two
inputs with the same sorted normal form (in particular, identical or
merely reordered objects) hash identically. -/
theorem signature_hash_canonical (i o : Json) (n : Chars) :
    (computeHash i o n).length = 64 ∧
    (∀ c ∈ computeHash i o n, c ∈ "0123456789abcdef".data) ∧
    computeHash i o n = sha256hex (utf8 (dumps (combinedDoc i o n))) ∧
    (∀ i2 o2, nfSort i = nfSort i2 → nfSort o = nfSort o2 →
      computeHash i o n = computeHash i2 o2 n) := by
  refine ⟨?_, ?_, rfl, ?_⟩
  · show (sha256hex (utf8 (dumps (combinedDoc i o n)))).length = 64
    unfold sha256hex
    rw [hexBytes_length, sha256_length]
  · intro c hc
    have hc2 : c ∈ hexBytes (sha256 (utf8 (dumps (combinedDoc i o n)))) := hc
    unfold hexBytes at hc2
    obtain ⟨l, hl, hcl⟩ := List.mem_flatten.mp hc2
    obtain ⟨b, hbmem, rfl⟩ := List.mem_map.mp hl
    have hb := sha256_lt _ b hbmem
    rcases List.mem_pair.mp hcl with rfl | rfl
    · exact hexDigit_mem _ ((Nat.div_lt_iff_lt_mul (by omega)).mpr (by omega))
    · exact hexDigit_mem _ (Nat.mod_lt _ (by omega))
  · intro i2 o2 h1 h2
    have hd : ∀ (a b : Json), nfSort (combinedDoc a b n) =
        .obj (sortk [("function_name".data, Json.str n),
          ("input".data, nfSort a), ("output".data, nfSort b)]) := by
      intro a b
      simp [combinedDoc, nfSort, nfObj]
    unfold computeHash dumps
    rw [hd i o, hd i2 o2, h1, h2]

/-- C2 witness: two object documents built in different member orders hash
identically. -/
theorem signature_hash_canonical_witness :
    computeHash (.obj [(['a'], Json.null), (['b'], Json.num 1)]) Json.null ['n'] =
      computeHash (.obj [(['b'], Json.num 1), (['a'], Json.null)]) Json.null ['n'] := by
  have hk : keyLe ['a'] ['b'] = true := by decide
  have hk2 : keyLe ['b'] ['a'] = false := by decide
  refine (signature_hash_canonical _ _ _).2.2.2 _ _ ?_ rfl
  simp [nfSort, nfObj, sortk, insEntry, hk, hk2]

/-- Shifting the base-256 accumulator. -/
theorem base256_foldl_shift (l : List Nat) :
    ∀ a : Nat, l.foldl (fun a b => a * 256 + b) a =
      a * 256 ^ l.length + l.foldl (fun a b => a * 256 + b) 0 := by
  induction l with
  | nil => intro a; simp
  | cons b t ih =>
    intro a
    show t.foldl (fun a b => a * 256 + b) (a * 256 + b) =
      a * 256 ^ (t.length + 1) + t.foldl (fun a b => a * 256 + b) (0 * 256 + b)
    rw [ih (a * 256 + b)]
    have hb : (0 : Nat) * 256 + b = b := by omega
    rw [hb, ih b, pow_succ]
    ring

/-- Peeling the leading byte off a base-256 numeral. -/
theorem base256_cons (b : Nat) (l : List Nat) :
    base256 (b :: l) = b * 256 ^ l.length + base256 l := by
  show l.foldl (fun a b => a * 256 + b) (0 * 256 + b) = _
  rw [base256_foldl_shift l (0 * 256 + b)]
  have hb : (0 : Nat) * 256 + b = b := by omega
  rw [hb]
  rfl

/-- A byte list reads below `256 ^ length`. -/
theorem base256_lt (l : List Nat) (h : ∀ b ∈ l, b < 256) :
    base256 l < 256 ^ l.length := by
  induction l with
  | nil => simp [base256]
  | cons b t ih =>
    rw [base256_cons]
    have hb : b < 256 := h b (List.mem_cons_self _ _)
    have ht : base256 t < 256 ^ t.length :=
      ih (fun x hx => h x (List.mem_cons_of_mem _ hx))
    calc b * 256 ^ t.length + base256 t < b * 256 ^ t.length + 256 ^ t.length :=
          Nat.add_lt_add_left ht _
      _ = (b + 1) * 256 ^ t.length := by ring
      _ ≤ 256 * 256 ^ t.length := Nat.mul_le_mul_right _ (by omega)
      _ = 256 ^ (t.length + 1) := by rw [pow_succ]; ring

/-- Distinct same-length byte lists read to distinct numerals: base-256
positional reading is injective on bounded digits. -/
theorem base256_inj : ∀ (l1 l2 : List Nat), l1.length = l2.length →
    (∀ b ∈ l1, b < 256) → (∀ b ∈ l2, b < 256) →
    base256 l1 = base256 l2 → l1 = l2 := by
  intro l1
  induction l1 with
  | nil =>
    intro l2 hlen _ _ _
    cases l2 with
    | nil => rfl
    | cons b t => exact absurd hlen (by simp)
  | cons b1 t1 ih =>
    intro l2 hlen hb1 hb2 hval
    cases l2 with
    | nil => exact absurd hlen (by simp)
    | cons b2 t2 =>
      have hl : t1.length = t2.length := by simpa using hlen
      rw [base256_cons, base256_cons, hl] at hval
      have hr1 : base256 t1 < 256 ^ t2.length := by
        rw [← hl]
        exact base256_lt t1 (fun x hx => hb1 x (List.mem_cons_of_mem _ hx))
      have hr2 : base256 t2 < 256 ^ t2.length :=
        base256_lt t2 (fun x hx => hb2 x (List.mem_cons_of_mem _ hx))
      have hpos : 0 < 256 ^ t2.length := Nat.pos_pow_of_pos _ (by omega)
      have hbeq : b1 = b2 := by
        have e1 : (b1 * 256 ^ t2.length + base256 t1) / 256 ^ t2.length = b1 := by
          rw [Nat.mul_comm b1 _, Nat.mul_add_div hpos, Nat.div_eq_of_lt hr1]
          omega
        have e2 : (b2 * 256 ^ t2.length + base256 t2) / 256 ^ t2.length = b2 := by
          rw [Nat.mul_comm b2 _, Nat.mul_add_div hpos, Nat.div_eq_of_lt hr2]
          omega
        rw [← e1, ← e2, hval]
      subst hbeq
      have htv : base256 t1 = base256 t2 := by omega
      rw [ih t2 hl (fun x hx => hb1 x (List.mem_cons_of_mem _ hx))
        (fun x hx => hb2 x (List.mem_cons_of_mem _ hx)) htv]

/-- C6 counterexample: the flat claim that differently-scoped functions
always get distinct signature hashes is falsifiable in principle: SHA-256
has only finitely many outputs, so among the infinitely many decoration
sites that differ only in their enclosing class name (identical local name
and byte-identical schemas) two must share a hash. The spec itself only
promises distinctness "with overwhelming probability". -/
theorem scope_hash_distinct_counterexample :
    ¬ (∀ d1 d2 : FuncDecl, d1.localName = d2.localName →
        d1.classPath ≠ d2.classPath →
        inputSchemaOf d1 = inputSchemaOf d2 →
        outputSchemaOf d1 = outputSchemaOf d2 →
        signatureHash d1 ≠ signatureHash d2) := by
  intro hclaim
  have hfin : ∀ nn : ℕ,
      base256 (sha256 (utf8 (hashPreimage (scopeFamily nn)))) < 256 ^ 32 := by
    intro nn
    have h1 := base256_lt _ (sha256_lt (utf8 (hashPreimage (scopeFamily nn))))
    rwa [sha256_length] at h1
  obtain ⟨nn, mm, hne, heq⟩ := Finite.exists_ne_map_eq_of_infinite
    (fun nn : ℕ =>
      (⟨base256 (sha256 (utf8 (hashPreimage (scopeFamily nn)))), hfin nn⟩ : Fin (256 ^ 32)))
  have hdig : sha256 (utf8 (hashPreimage (scopeFamily nn))) =
      sha256 (utf8 (hashPreimage (scopeFamily mm))) := by
    apply base256_inj _ _ (by rw [sha256_length, sha256_length])
      (sha256_lt _) (sha256_lt _)
    exact congrArg Fin.val heq
  have hhash : signatureHash (scopeFamily nn) = signatureHash (scopeFamily mm) := by
    show hexBytes (sha256 (utf8 (hashPreimage (scopeFamily nn)))) =
      hexBytes (sha256 (utf8 (hashPreimage (scopeFamily mm))))
    rw [hdig]
  have hcp : (scopeFamily nn).classPath ≠ (scopeFamily mm).classPath := by
    intro h
    have h2 : List.replicate (nn + 1) 'C' = List.replicate (mm + 1) 'C' := by
      simpa [scopeFamily] using h
    have h3 := congrArg List.length h2
    simp at h3
    exact hne h3
  exact hclaim (scopeFamily nn) (scopeFamily mm) rfl hcp rfl rfl hhash

/-- One character escapes to itself when it needs no escaping. -/
theorem escChar_plain (c : Char) (h : plainChar c) : escChar c = [c] := by
  obtain ⟨h1, h2, h3, h4⟩ := h
  unfold escChar
  rw [if_neg h3, if_neg h4, if_pos ⟨h1, h2⟩]

/-- A plain string escapes to itself. -/
theorem escStr_plain (s : Chars) (h : ∀ c ∈ s, plainChar c) : escStr s = s := by
  induction s with
  | nil => rfl
  | cons c t ih =>
    show escChar c ++ (t.map escChar).flatten = c :: t
    rw [escChar_plain c (h c (List.mem_cons_self _ _))]
    have := ih (fun x hx => h x (List.mem_cons_of_mem _ hx))
    show c :: escStr t = c :: t
    rw [this]

/-- Splitting at the first occurrence of a separator character is
unambiguous: equal concatenations with separator-free prefixes have equal
prefixes and equal suffixes. -/
theorem append_sep_inj (c : Char) : ∀ (l1 l2 r1 r2 : Chars), c ∉ l1 → c ∉ l2 →
    l1 ++ c :: r1 = l2 ++ c :: r2 → l1 = l2 ∧ r1 = r2 := by
  intro l1
  induction l1 with
  | nil =>
    intro l2 r1 r2 _ h2 h
    cases l2 with
    | nil => simpa using h
    | cons x t =>
      rw [List.nil_append, List.cons_append] at h
      injection h with hx _
      subst hx
      exact absurd (List.mem_cons_self _ _) h2
  | cons y t ih =>
    intro l2 r1 r2 h1 h2 h
    cases l2 with
    | nil =>
      rw [List.nil_append, List.cons_append] at h
      injection h with hy _
      subst hy
      exact absurd (List.mem_cons_self _ _) h1
    | cons z u =>
      rw [List.cons_append, List.cons_append] at h
      injection h with hy h'
      subst hy
      obtain ⟨hu, hr⟩ := ih u r1 r2 (fun hc => h1 (List.mem_cons_of_mem _ hc))
        (fun hc => h2 (List.mem_cons_of_mem _ hc)) h'
      exact ⟨by rw [hu], hr⟩

/-- Joining two or more segments always contains a dot. -/
theorem dot_mem_joinDots (a b : Chars) (t : List Chars) :
    '.' ∈ joinDots (a :: b :: t) := by
  show '.' ∈ a ++ '.' :: joinDots (b :: t)
  exact List.mem_append_right _ (List.mem_cons_self _ _)

/-- Dot-joining is injective on non-empty lists of dot-free segments. -/
theorem joinDots_inj : ∀ (l1 l2 : List Chars), (∀ s ∈ l1, '.' ∉ s) →
    (∀ s ∈ l2, '.' ∉ s) → l1 ≠ [] → l2 ≠ [] →
    joinDots l1 = joinDots l2 → l1 = l2 := by
  intro l1
  induction l1 with
  | nil => intro l2 _ _ hne; exact absurd rfl hne
  | cons s t ih =>
    intro l2 hd1 hd2 _ hne2 h
    cases l2 with
    | nil => exact absurd rfl hne2
    | cons s2 u =>
      cases t with
      | nil =>
        cases u with
        | nil =>
          have hs : s = s2 := h
          rw [hs]
        | cons b2 t2 =>
          have hdot := dot_mem_joinDots s2 b2 t2
          rw [show joinDots [s] = s from rfl] at h
          rw [← h] at hdot
          exact absurd hdot (hd1 s (List.mem_cons_self _ _))
      | cons b1 t1 =>
        cases u with
        | nil =>
          have hdot := dot_mem_joinDots s b1 t1
          rw [show joinDots [s2] = s2 from rfl] at h
          rw [h] at hdot
          exact absurd hdot (hd2 s2 (List.mem_cons_self _ _))
        | cons b2 t2 =>
          rw [show joinDots (s :: b1 :: t1) = s ++ '.' :: joinDots (b1 :: t1) from rfl,
            show joinDots (s2 :: b2 :: t2) = s2 ++ '.' :: joinDots (b2 :: t2) from rfl] at h
          obtain ⟨hs, hrest⟩ := append_sep_inj '.' s s2 _ _
            (hd1 s (List.mem_cons_self _ _)) (hd2 s2 (List.mem_cons_self _ _)) h
          have hu := ih (b2 :: t2) (fun x hx => hd1 x (List.mem_cons_of_mem _ hx))
            (fun x hx => hd2 x (List.mem_cons_of_mem _ hx))
            (List.cons_ne_nil _ _) (List.cons_ne_nil _ _) hrest
          rw [hs, hu]

/-- Same module, same dot-free local name, different enclosing class path:
the resolved scope names differ. -/
theorem scopeName_ne_of (d1 d2 : FuncDecl) (hm : d1.module = d2.module)
    (hl : d1.localName = d2.localName) (hcp : d1.classPath ≠ d2.classPath)
    (hd1 : ∀ s ∈ d1.classPath, '.' ∉ s) (hd2 : ∀ s ∈ d2.classPath, '.' ∉ s)
    (hdl : '.' ∉ d1.localName) : scopeName d1 ≠ scopeName d2 := by
  intro h
  unfold scopeName at h
  rw [hm] at h
  have h2 := List.append_inj_right h rfl
  injection h2 with _ h3
  have hq := joinDots_inj (d1.classPath ++ [d1.localName]) (d2.classPath ++ [d2.localName])
    (by
      intro s hs
      rcases List.mem_append.mp hs with hs | hs
      · exact hd1 s hs
      · rw [List.mem_singleton.mp hs]; exact hdl)
    (by
      intro s hs
      rcases List.mem_append.mp hs with hs | hs
      · exact hd2 s hs
      · rw [List.mem_singleton.mp hs, ← hl]; exact hdl)
    (by simp) (by simp) h3
  have := congrArg List.reverse hq
  simp [List.reverse_append] at this
  exact hcp ((List.reverse_inj).mp (by simpa using this.2))

/-- The serialized combined document decomposes around the scope name:
`function_name` is the lexicographically first key, so the canonical form
is a fixed prefix, the quoted scope name, then the schemas. -/
theorem dumps_combined_shape (i o : Json) (nm : Chars)
    (hp : ∀ c ∈ nm, plainChar c) :
    dumps (combinedDoc i o nm) = preCombined ++ (nm ++ '"' :: postCombined i o) := by
  have hk12 : keyLe "function_name".data "input".data = true := by decide
  have hk23 : keyLe "input".data "output".data = true := by decide
  have hnf : nfSort (combinedDoc i o nm) = .obj [("function_name".data, .str nm),
      ("input".data, nfSort i), ("output".data, nfSort o)] := by
    simp [combinedDoc, nfSort, nfObj, sortk, insEntry, hk12, hk23]
  show dumpsRaw (nfSort (combinedDoc i o nm)) = _
  rw [hnf]
  have hobj : dumpsRaw (.obj [("function_name".data, Json.str nm),
      ("input".data, nfSort i), ("output".data, nfSort o)]) =
      '{' :: (dumpStr "function_name".data ++ ':' :: ' ' :: dumpsRaw (.str nm) ++
        ',' :: ' ' :: (dumpStr "input".data ++ ':' :: ' ' :: dumpsRaw (nfSort i) ++
          ',' :: ' ' :: (dumpStr "output".data ++ ':' :: ' ' :: dumpsRaw (nfSort o)))) ++ ['}'] := by
    simp [dumpsRaw, dumpsObj]
  rw [hobj]
  have hstr : dumpsRaw (.str nm) = '"' :: nm ++ ['"'] := by
    show dumpStr nm = '"' :: nm ++ ['"']
    unfold dumpStr
    rw [escStr_plain nm hp]
  rw [hstr]
  simp [preCombined, postCombined, dumpStr]

/-- Identical schemas but different scope names give different canonical
hash preimages: the serialized documents differ exactly at the scope
name. -/
theorem hashPreimage_ne_of (d1 d2 : FuncDecl)
    (hin : inputSchemaOf d1 = inputSchemaOf d2)
    (hout : outputSchemaOf d1 = outputSchemaOf d2)
    (hp1 : ∀ c ∈ scopeName d1, plainChar c) (hp2 : ∀ c ∈ scopeName d2, plainChar c)
    (hsne : scopeName d1 ≠ scopeName d2) : hashPreimage d1 ≠ hashPreimage d2 := by
  intro h
  unfold hashPreimage at h
  rw [hin, hout, dumps_combined_shape _ _ _ hp1, dumps_combined_shape _ _ _ hp2] at h
  have h2 := List.append_inj_right h rfl
  have h3 := append_sep_inj '"' _ _ _ _
    (fun hq => (hp1 '"' hq).2.2.1 rfl) (fun hq => (hp2 '"' hq).2.2.1 rfl) h2
  exact hsne h3.1

/-- C6 amended: two wrap sites with the same module, the same (dot-free)
local name, but different enclosing class paths resolve to different scope
names and — because the scope name is serialized into the hashed document —
produce different canonical hash preimages; their signature hashes can
only coincide through an outright SHA-256 collision on those two distinct
serializations. -/
theorem scope_hash_distinct_amended (d1 d2 : FuncDecl)
    (hm : d1.module = d2.module) (hl : d1.localName = d2.localName)
    (hcp : d1.classPath ≠ d2.classPath)
    (hd1 : ∀ s ∈ d1.classPath, '.' ∉ s) (hd2 : ∀ s ∈ d2.classPath, '.' ∉ s)
    (hdl : '.' ∉ d1.localName)
    (hp1 : ∀ c ∈ scopeName d1, plainChar c) (hp2 : ∀ c ∈ scopeName d2, plainChar c)
    (hin : inputSchemaOf d1 = inputSchemaOf d2)
    (hout : outputSchemaOf d1 = outputSchemaOf d2) :
    scopeName d1 ≠ scopeName d2 ∧
    hashPreimage d1 ≠ hashPreimage d2 ∧
    (signatureHash d1 = signatureHash d2 →
      ∃ s t : Chars, s ≠ t ∧ sha256hex (utf8 s) = sha256hex (utf8 t)) := by
  have hs := scopeName_ne_of d1 d2 hm hl hcp hd1 hd2 hdl
  have hpre := hashPreimage_ne_of d1 d2 hin hout hp1 hp2 hs
  exact ⟨hs, hpre, fun hh => ⟨hashPreimage d1, hashPreimage d2, hpre, hh⟩⟩

/-- C6 amended witness: methods `A.f` and `B.f` of module `m`, identical
schemas — distinct scope names and distinct hash preimages at a concrete
pair of decoration sites. -/
theorem scope_hash_distinct_amended_witness :
    scopeName dA ≠ scopeName dB ∧ hashPreimage dA ≠ hashPreimage dB := by
  have h := scope_hash_distinct_amended dA dB rfl rfl (by decide)
    (by decide) (by decide) (by decide) (by decide) (by decide) rfl rfl
  exact ⟨h.1, h.2.1⟩

end Blackbox
